import Mathlib

/-!
Shallow embedding of the `timedmap` Go library (generic version:
`timedmap.go` / `section.go`), a key-value store whose entries carry an
absolute expiration instant and optional expiration callbacks.

Modelling conventions:
* instants and durations are `Int` (Go `time.Time` / `time.Duration`);
  Go `t.After(u)` is the strict comparison `u < t`;
* the container `map[keyWrap[TKey]]*element[TVal]` is an association list
  `List (keyWrap κ × element α β)`;
* callbacks are opaque identifiers of type `β`; invoking a callback `cb`
  on a value `v` is recorded as the pair `(cb, v)` in an invocation log
  returned alongside the new container state;
* `sync` locking, the `sync.Pool` element pool and goroutine scheduling
  are erased: operations are sequential state transformers;
* each operation that reads the clock takes the sampled instant `now`
  as an explicit argument.
-/

namespace Timedmap

/-- Go `keyWrap[TKey]`: the composite key pairing a section identifier
with a user key. -/
structure keyWrap (κ : Type) where
  sec : Int
  key : κ
deriving DecidableEq, Repr

/-- Go `element[TVal]`: the stored value, its absolute expiration
instant and the registered expiration callbacks (in registration
order). -/
structure element (α β : Type) where
  value : α
  expires : Int
  cbs : List β
deriving DecidableEq, Repr

/-- Go `t.After(u)`: strictly after. -/
def timeAfter (t u : Int) : Bool :=
  u < t

/-- The container of a `TimedMap`, as an association list. -/
abbrev Container (κ α β : Type) : Type :=
  List (keyWrap κ × element α β)

/-- The log of callback invocations produced by an operation: each
entry `(cb, v)` records callback `cb` being invoked with value `v`. -/
abbrev CbLog (α β : Type) : Type :=
  List (β × α)

variable {κ α β : Type} [DecidableEq κ]

/-- Go `getRaw`: look the composite key up in the container, ignoring
expiration. -/
def getRaw : Container κ α β → keyWrap κ → Option (element α β)
  | [], _ => none
  | (k, v) :: rest, kw => if k = kw then some v else getRaw rest kw

/-- Deletion from the container (Go `delete(tm.container, k)`). -/
def eraseKey (c : Container κ α β) (kw : keyWrap κ) : Container κ α β :=
  c.filter (fun p => !decide (p.1 = kw))

/-- In-place mutation of the element stored under a key (Go writes
through the `*element` pointer obtained from the map). -/
def updateEntry : Container κ α β → keyWrap κ → element α β → Container κ α β
  | [], _, _ => []
  | (k, v) :: rest, kw, e =>
    if k = kw then (kw, e) :: rest else (k, v) :: updateEntry rest kw e

/-- Go `expireElement`: invoke every callback of `v` with its value, in
registration order, and delete the entry from the container. -/
def expireElement (c : Container κ α β) (key : κ) (sec : Int) (v : element α β) :
    CbLog α β × Container κ α β :=
  (v.cbs.map (fun cb => (cb, v.value)), eraseKey c ⟨sec, key⟩)

/-- Go `get`: raw lookup, then lazy expiration — if the entry's deadline
is strictly before `now`, evict it (callbacks fire) and report absent. -/
def get (c : Container κ α β) (key : κ) (sec : Int) (now : Int) :
    Option (element α β) × CbLog α β × Container κ α β :=
  match getRaw c ⟨sec, key⟩ with
  | none => (none, [], c)
  | some v =>
    if timeAfter now v.expires then
      let r := expireElement c key sec v
      (none, r.1, r.2)
    else
      (some v, [], c)

/-- Go `cleanUp`: one sweep pass over the container at instant `now`;
every entry whose deadline `now` is strictly after is expired via
`expireElement` (callbacks fire, entry deleted), the rest are kept. -/
def cleanUp (now : Int) : Container κ α β → CbLog α β × Container κ α β
  | [] => ([], [])
  | (k, v) :: rest =>
    let r := cleanUp now rest
    if timeAfter now v.expires then
      (v.cbs.map (fun cb => (cb, v.value)) ++ r.1, r.2)
    else
      (r.1, (k, v) :: r.2)

/-- Go `set`: if an element exists under the composite key (regardless
of expiration — the probe is `getRaw`), overwrite its value, deadline
and callback list in place; otherwise insert a fresh element. Never
invokes callbacks (log is always empty) and has no error path. -/
def set (c : Container κ α β) (key : κ) (sec : Int) (val : α)
    (expiresAfter : Int) (cb : List β) (now : Int) :
    CbLog α β × Container κ α β :=
  match getRaw c ⟨sec, key⟩ with
  | some _ =>
    ([], updateEntry c ⟨sec, key⟩ ⟨val, now + expiresAfter, cb⟩)
  | none =>
    ([], c ++ [(⟨sec, key⟩, ⟨val, now + expiresAfter, cb⟩)])

/-- Go `remove`: delete the entry if present, do nothing otherwise;
never invokes callbacks. -/
def remove (c : Container κ α β) (key : κ) (sec : Int) :
    CbLog α β × Container κ α β :=
  match getRaw c ⟨sec, key⟩ with
  | none => ([], c)
  | some _ => ([], eraseKey c ⟨sec, key⟩)

/-- Go `TimedMap.Flush`: delete every entry of the container; never
invokes callbacks. -/
def flush (_c : Container κ α β) : CbLog α β × Container κ α β :=
  ([], [])

/-- Go `section.Flush`: remove every entry whose composite key carries
the section identifier; never invokes callbacks. -/
def sectionFlush (c : Container κ α β) (sec : Int) :
    CbLog α β × Container κ α β :=
  ([], c.filter (fun p => !decide (p.1.sec = sec)))

/-- Go `TimedMap.Size`: `len(tm.container)` — the number of entries in
the whole container. -/
def size (c : Container κ α β) : Nat :=
  c.length

/-- Go `section.Size`: the number of container entries whose composite
key carries the section identifier. -/
def sectionSize (c : Container κ α β) (sec : Int) : Nat :=
  (c.filter (fun p => decide (p.1.sec = sec))).length

/-- The error taxonomy (Go `ErrKeyNotFound`, `ErrValueNoMap`). -/
inductive TMError where
  | ErrKeyNotFound
  | ErrValueNoMap
deriving DecidableEq, Repr

/-- Go `GetExpires`: via `get` (so lazy eviction may fire); absent or
expired yields `ErrKeyNotFound`. -/
def getExpires (c : Container κ α β) (key : κ) (sec : Int) (now : Int) :
    Except TMError Int × CbLog α β × Container κ α β :=
  match get c key sec now with
  | (none, log, c') => (Except.error TMError.ErrKeyNotFound, log, c')
  | (some v, log, c') => (Except.ok v.expires, log, c')

/-- Go `Contains`: `get` is non-nil. -/
def contains (c : Container κ α β) (key : κ) (sec : Int) (now : Int) :
    Bool × CbLog α β × Container κ α β :=
  match get c key sec now with
  | (none, log, c') => (false, log, c')
  | (some _, log, c') => (true, log, c')

/-- Go `GetValue`: `get` projected to the value, or the zero value
(`default`) when absent or expired. -/
def getValue [Inhabited α] (c : Container κ α β) (key : κ) (sec : Int) (now : Int) :
    α × CbLog α β × Container κ α β :=
  match get c key sec now with
  | (none, log, c') => (default, log, c')
  | (some v, log, c') => (v.value, log, c')

/-- Go `refresh`: via `get`; on success sets `expires = expires + d`
through the element pointer (additive from the current deadline). -/
def refresh (c : Container κ α β) (key : κ) (sec : Int) (d : Int) (now : Int) :
    Except TMError Unit × CbLog α β × Container κ α β :=
  match get c key sec now with
  | (none, log, c') => (Except.error TMError.ErrKeyNotFound, log, c')
  | (some v, log, c') =>
    (Except.ok (), log, updateEntry c' ⟨sec, key⟩ ⟨v.value, v.expires + d, v.cbs⟩)

/-- Go `setExpires`: via `get`; on success sets `expires = now + d`
through the element pointer (absolute reset). -/
def setExpires (c : Container κ α β) (key : κ) (sec : Int) (d : Int) (now : Int) :
    Except TMError Unit × CbLog α β × Container κ α β :=
  match get c key sec now with
  | (none, log, c') => (Except.error TMError.ErrKeyNotFound, log, c')
  | (some v, log, c') =>
    (Except.ok (), log, updateEntry c' ⟨sec, key⟩ ⟨v.value, now + d, v.cbs⟩)

/-- The sweep-loop lifecycle state of a `TimedMap`: the `cleanerRunning`
flag and the internal ticker (`none` when no internal ticker was ever
created, `some b` with `b` = ticker active). -/
structure cleanerState where
  cleanerRunning : Bool
  cleanerTicker : Option Bool
deriving DecidableEq, Repr

/-- Go `StopCleaner`: if the cleaner is not running, return at once with
no state change; otherwise signal the loop to exit (clearing
`cleanerRunning`) and stop the internal ticker when one exists. -/
def stopCleaner (s : cleanerState) : cleanerState :=
  if !s.cleanerRunning then s
  else ⟨false, s.cleanerTicker.map (fun _ => false)⟩

/-- A composite key is live in `c` at `now` when an entry is stored
under it whose deadline has not yet strictly passed. -/
def liveAt (c : Container κ α β) (kw : keyWrap κ) (now : Int) : Prop :=
  ∃ e, getRaw c kw = some e ∧ timeAfter now e.expires = false

/-! ### Helper lemmas about the container operations -/

theorem getRaw_eraseKey_self (c : Container κ α β) (kw : keyWrap κ) :
    getRaw (eraseKey c kw) kw = none := by
  induction c with
  | nil => rfl
  | cons p rest ih =>
    obtain ⟨k, v⟩ := p
    by_cases h : k = kw
    · simpa [eraseKey, List.filter_cons, h] using ih
    · simpa [eraseKey, List.filter_cons, h, getRaw] using ih

theorem getRaw_eraseKey_ne (c : Container κ α β) (kw kw' : keyWrap κ)
    (h : kw' ≠ kw) : getRaw (eraseKey c kw) kw' = getRaw c kw' := by
  induction c with
  | nil => rfl
  | cons p rest ih =>
    obtain ⟨k, v⟩ := p
    by_cases hk : k = kw
    · subst hk
      simpa [eraseKey, List.filter_cons, getRaw, (Ne.symm h)] using ih
    · by_cases hk' : k = kw'
      · simp [eraseKey, List.filter_cons, hk, getRaw, hk', h]
      · simpa [eraseKey, List.filter_cons, hk, getRaw, hk'] using ih

theorem getRaw_updateEntry_self (c : Container κ α β) (kw : keyWrap κ)
    (e e₀ : element α β) (h : getRaw c kw = some e₀) :
    getRaw (updateEntry c kw e) kw = some e := by
  induction c with
  | nil => simp [getRaw] at h
  | cons p rest ih =>
    obtain ⟨k, v⟩ := p
    by_cases hk : k = kw
    · simp [updateEntry, hk, getRaw]
    · simp [getRaw, hk] at h
      simpa [updateEntry, hk, getRaw] using ih h

theorem getRaw_updateEntry_ne (c : Container κ α β) (kw kw' : keyWrap κ)
    (e : element α β) (h : kw' ≠ kw) :
    getRaw (updateEntry c kw e) kw' = getRaw c kw' := by
  induction c with
  | nil => rfl
  | cons p rest ih =>
    obtain ⟨k, v⟩ := p
    by_cases hk : k = kw
    · subst hk
      simp [updateEntry, getRaw, Ne.symm h]
    · by_cases hk' : k = kw'
      · simp [updateEntry, hk, getRaw, hk', h]
      · simpa [updateEntry, hk, getRaw, hk'] using ih

theorem getRaw_append (c d : Container κ α β) (kw : keyWrap κ) :
    getRaw (c ++ d) kw =
      match getRaw c kw with
      | some v => some v
      | none => getRaw d kw := by
  induction c with
  | nil => simp [getRaw]
  | cons p rest ih =>
    obtain ⟨k, v⟩ := p
    by_cases hk : k = kw
    · simp [getRaw, hk]
    · simpa [getRaw, hk] using ih

theorem getRaw_sectionFlush (c : Container κ α β) (s : Int) (kw : keyWrap κ) :
    getRaw (sectionFlush c s).2 kw =
      if kw.sec = s then none else getRaw c kw := by
  induction c with
  | nil => simp [sectionFlush, getRaw]
  | cons p rest ih =>
    obtain ⟨k, v⟩ := p
    by_cases hs : k.sec = s
    · by_cases hk : k = kw
      · subst hk
        simpa [sectionFlush, List.filter_cons, hs] using ih
      · simpa [sectionFlush, List.filter_cons, hs, getRaw, hk] using ih
    · by_cases hk : k = kw
      · subst hk
        simp [sectionFlush, List.filter_cons, hs, getRaw]
      · simpa [sectionFlush, List.filter_cons, hs, getRaw, hk] using ih

omit [DecidableEq κ] in
theorem cleanUp_container (now : Int) (c : Container κ α β) :
    (cleanUp now c).2 = c.filter (fun p => !timeAfter now p.2.expires) := by
  induction c with
  | nil => rfl
  | cons p rest ih =>
    obtain ⟨k, v⟩ := p
    by_cases h : timeAfter now v.expires
    · simp [cleanUp, h, List.filter_cons, ih]
    · simp [cleanUp, h, List.filter_cons, ih]

omit [DecidableEq κ] in
theorem cleanUp_log (now : Int) (c : Container κ α β) :
    (cleanUp now c).1 =
      (c.filter (fun p => timeAfter now p.2.expires)).flatMap
        (fun p => p.2.cbs.map (fun cb => (cb, p.2.value))) := by
  induction c with
  | nil => rfl
  | cons p rest ih =>
    obtain ⟨k, v⟩ := p
    by_cases h : timeAfter now v.expires
    · simp [cleanUp, h, List.filter_cons, ih]
    · simp [cleanUp, h, List.filter_cons, ih]

theorem getRaw_set_self (c : Container κ α β) (key : κ) (sec : Int) (v : α)
    (ttl : Int) (cbs : List β) (now : Int) :
    getRaw (set c key sec v ttl cbs now).2 ⟨sec, key⟩ =
      some ⟨v, now + ttl, cbs⟩ := by
  cases h : getRaw c ⟨sec, key⟩ with
  | none =>
    rw [set, h, getRaw_append, h]
    simp [getRaw]
  | some e =>
    rw [set, h]
    exact getRaw_updateEntry_self c ⟨sec, key⟩ _ e h

theorem getRaw_set_ne (c : Container κ α β) (key : κ) (sec : Int) (v : α)
    (ttl : Int) (cbs : List β) (now : Int) (kw : keyWrap κ)
    (hne : kw ≠ ⟨sec, key⟩) :
    getRaw (set c key sec v ttl cbs now).2 kw = getRaw c kw := by
  cases h : getRaw c ⟨sec, key⟩ with
  | none =>
    rw [set, h, getRaw_append]
    cases hk : getRaw c kw with
    | none => simp [getRaw, Ne.symm hne]
    | some e => simp
  | some e =>
    rw [set, h]
    exact getRaw_updateEntry_ne c ⟨sec, key⟩ kw _ hne

theorem get_none_iff (c : Container κ α β) (key : κ) (sec now : Int) :
    (get c key sec now).1 = none ↔ ¬ liveAt c ⟨sec, key⟩ now := by
  unfold liveAt
  cases h : getRaw c ⟨sec, key⟩ with
  | none => simp [get, h]
  | some v =>
    by_cases ht : timeAfter now v.expires
    · simp [get, h, ht]
    · simp [get, h, ht]

/-! ### Claim theorems -/

/-- Claim C1, counterexample to the claim as stated: the claim says a
lookup at `now` with `now ≥ expires` treats the entry as absent, but
`get` uses the strict Go comparison `now.After(expires)`, so at the
boundary instant `now = expires` the entry is still returned and
`contains` still reports `true`. -/
theorem claim_C1_counterexample :
    (100 : Int) ≥ 100
    ∧ (get ([(⟨0, 0⟩, ⟨7, 100, [9]⟩)] : Container Int Int Int)
        (0 : Int) 0 100).1 = some ⟨7, 100, [9]⟩
    ∧ (contains ([(⟨0, 0⟩, ⟨7, 100, [9]⟩)] : Container Int Int Int)
        (0 : Int) 0 100).1 = true := by
  refine ⟨by decide, by decide, by decide⟩

/-- Claim C1 (amended: absence at `now` strictly after `expires`, not at
`now ≥ expires`): for every stored entry, a lookup strictly after the
deadline removes the entry, invokes all its callbacks with its value in
registration order, and reports absent (`get` is `none`, `contains` is
`false`, `getValue` is the zero value); a lookup at or before the
deadline returns the entry unchanged — independent of any sweep. -/
theorem claim_C1_lazy_expiration [Inhabited α] (c : Container κ α β)
    (key : κ) (sec now : Int) (e : element α β)
    (h : getRaw c ⟨sec, key⟩ = some e) :
    (e.expires < now →
      get c key sec now =
        (none, e.cbs.map (fun cb => (cb, e.value)), eraseKey c ⟨sec, key⟩)
      ∧ getRaw (get c key sec now).2.2 ⟨sec, key⟩ = none
      ∧ (contains c key sec now).1 = false
      ∧ (getValue c key sec now).1 = default)
    ∧ (now ≤ e.expires →
      get c key sec now = (some e, [], c)
      ∧ (contains c key sec now).1 = true
      ∧ (getValue c key sec now).1 = e.value) := by
  constructor
  · intro hlt
    have ht : timeAfter now e.expires = true := by
      simp [timeAfter, hlt]
    have hg : get c key sec now =
        (none, e.cbs.map (fun cb => (cb, e.value)), eraseKey c ⟨sec, key⟩) := by
      simp [get, h, ht, expireElement]
    refine ⟨hg, ?_, ?_, ?_⟩
    · rw [hg]
      exact getRaw_eraseKey_self c ⟨sec, key⟩
    · simp [contains, hg]
    · simp [getValue, hg]
  · intro hle
    have ht : timeAfter now e.expires = false := by
      simp [timeAfter]
      exact hle
    have hg : get c key sec now = (some e, [], c) := by
      simp [get, h, ht]
    exact ⟨hg, by simp [contains, hg], by simp [getValue, hg]⟩

/-- Witness for `claim_C1_lazy_expiration` at a concrete store. -/
theorem claim_C1_witness :
    ((get ([(⟨0, 0⟩, ⟨7, 100, [9]⟩)] : Container Int Int Int)
        (0 : Int) 0 150).1 = none
      ∧ (contains ([(⟨0, 0⟩, ⟨7, 100, [9]⟩)] : Container Int Int Int)
          (0 : Int) 0 150).1 = false)
    ∧ (get ([(⟨0, 0⟩, ⟨7, 100, [9]⟩)] : Container Int Int Int)
        (0 : Int) 0 50).1 = some ⟨7, 100, [9]⟩ := by
  have h₁ := (claim_C1_lazy_expiration
    ([(⟨0, 0⟩, ⟨7, 100, [9]⟩)] : Container Int Int Int)
    (0 : Int) 0 150 ⟨7, 100, [9]⟩ (by decide)).1 (by decide)
  have h₂ := (claim_C1_lazy_expiration
    ([(⟨0, 0⟩, ⟨7, 100, [9]⟩)] : Container Int Int Int)
    (0 : Int) 0 50 ⟨7, 100, [9]⟩ (by decide)).2 (by decide)
  exact ⟨⟨by rw [h₁.1], h₁.2.2.1⟩, by rw [h₂.1]⟩

omit [DecidableEq κ] in
/-- Claim C2: one sweep pass `cleanUp` at the instant `now` sampled at
its start keeps exactly (and unchanged) the entries whose deadline has
not passed, and its callback log is the concatenation, entry by removed
entry, of that entry's callbacks each paired with its value in
registration order. -/
theorem claim_C2_sweep (now : Int) (c : Container κ α β) :
    (cleanUp now c).2 = c.filter (fun p => !timeAfter now p.2.expires)
    ∧ (cleanUp now c).1 =
        (c.filter (fun p => timeAfter now p.2.expires)).flatMap
          (fun p => p.2.cbs.map (fun cb => (cb, p.2.value)))
    ∧ ∀ p, p ∈ c →
        (p ∈ (cleanUp now c).2 ↔ timeAfter now p.2.expires = false) := by
  refine ⟨cleanUp_container now c, cleanUp_log now c, ?_⟩
  intro p hp
  rw [cleanUp_container now c]
  simp [List.mem_filter, hp]

/-- Witness for `claim_C2_sweep` at a concrete store: the expired entry
is removed with its callback fired, the live one is kept. -/
theorem claim_C2_witness :
    (cleanUp 100 ([(⟨0, 0⟩, ⟨7, 50, [9]⟩), (⟨1, 4⟩, ⟨8, 200, [3]⟩)] :
      Container Int Int Int)) = ([(9, 7)], [(⟨1, 4⟩, ⟨8, 200, [3]⟩)]) := by
  have h := claim_C2_sweep 100
    ([(⟨0, 0⟩, ⟨7, 50, [9]⟩), (⟨1, 4⟩, ⟨8, 200, [3]⟩)] : Container Int Int Int)
  have h1 := h.1
  have h2 := h.2.1
  have : (cleanUp 100 ([(⟨0, 0⟩, ⟨7, 50, [9]⟩), (⟨1, 4⟩, ⟨8, 200, [3]⟩)] :
      Container Int Int Int)).1 = [(9, 7)] := by rw [h2]; decide
  have hc : (cleanUp 100 ([(⟨0, 0⟩, ⟨7, 50, [9]⟩), (⟨1, 4⟩, ⟨8, 200, [3]⟩)] :
      Container Int Int Int)).2 = [(⟨1, 4⟩, ⟨8, 200, [3]⟩)] := by rw [h1]; decide
  exact Prod.ext this hc

/-- Claim C3: on a present, non-expired entry with deadline `t0`,
`refresh` succeeds and moves the deadline to `t0 + d` (additive from
the current deadline) while `setExpires` succeeds and moves it to
`now + d` (absolute reset); neither changes the value or the callback
list. -/
theorem claim_C3_refresh_setExpires (c : Container κ α β) (key : κ)
    (sec d now : Int) (e : element α β)
    (h : getRaw c ⟨sec, key⟩ = some e)
    (hlive : timeAfter now e.expires = false) :
    (refresh c key sec d now).1 = Except.ok ()
    ∧ getRaw (refresh c key sec d now).2.2 ⟨sec, key⟩ =
        some ⟨e.value, e.expires + d, e.cbs⟩
    ∧ (setExpires c key sec d now).1 = Except.ok ()
    ∧ getRaw (setExpires c key sec d now).2.2 ⟨sec, key⟩ =
        some ⟨e.value, now + d, e.cbs⟩ := by
  have hg : get c key sec now = (some e, [], c) := by
    simp [get, h, hlive]
  refine ⟨?_, ?_, ?_, ?_⟩
  · simp [refresh, hg]
  · simp only [refresh, hg]
    exact getRaw_updateEntry_self c ⟨sec, key⟩ _ e h
  · simp [setExpires, hg]
  · simp only [setExpires, hg]
    exact getRaw_updateEntry_self c ⟨sec, key⟩ _ e h

/-- Witness for `claim_C3_refresh_setExpires`: entry with deadline 100,
`now = 50`, `d = 30`: refresh gives 130, setExpires gives 80. -/
theorem claim_C3_witness :
    getRaw (refresh ([(⟨0, 0⟩, ⟨7, 100, [9]⟩)] : Container Int Int Int)
        (0 : Int) 0 30 50).2.2 ⟨0, 0⟩ = some ⟨7, 130, [9]⟩
    ∧ getRaw (setExpires ([(⟨0, 0⟩, ⟨7, 100, [9]⟩)] : Container Int Int Int)
        (0 : Int) 0 30 50).2.2 ⟨0, 0⟩ = some ⟨7, 80, [9]⟩ := by
  have h := claim_C3_refresh_setExpires
    ([(⟨0, 0⟩, ⟨7, 100, [9]⟩)] : Container Int Int Int)
    (0 : Int) 0 30 50 ⟨7, 100, [9]⟩ (by decide) (by decide)
  exact ⟨h.2.1, h.2.2.2⟩

/-- Claim C4: `getExpires`, `setExpires` and `refresh` fail exactly when
no existing, non-expired entry is stored under the composite key, and
the error is always `ErrKeyNotFound`; when such an entry exists they
succeed. (`set`, `remove` and `flush` are embedded as total functions
with no error component, mirroring their Go signatures, which return
nothing.) -/
theorem claim_C4_error_taxonomy (c : Container κ α β) (key : κ)
    (sec d now : Int) :
    ((getExpires c key sec now).1 = Except.error TMError.ErrKeyNotFound
      ↔ ¬ liveAt c ⟨sec, key⟩ now)
    ∧ ((setExpires c key sec d now).1 = Except.error TMError.ErrKeyNotFound
      ↔ ¬ liveAt c ⟨sec, key⟩ now)
    ∧ ((refresh c key sec d now).1 = Except.error TMError.ErrKeyNotFound
      ↔ ¬ liveAt c ⟨sec, key⟩ now)
    ∧ (∀ err, (getExpires c key sec now).1 = Except.error err →
        err = TMError.ErrKeyNotFound)
    ∧ (∀ err, (setExpires c key sec d now).1 = Except.error err →
        err = TMError.ErrKeyNotFound)
    ∧ (∀ err, (refresh c key sec d now).1 = Except.error err →
        err = TMError.ErrKeyNotFound) := by
  have hnone := get_none_iff c key sec now
  rcases hg : get c key sec now with ⟨o, log, c'⟩
  rw [hg] at hnone
  cases o with
  | none =>
    simp only [getExpires, setExpires, refresh, hg]
    simp at hnone
    refine ⟨by simpa using hnone, by simpa using hnone, by simpa using hnone,
      ?_, ?_, ?_⟩
    all_goals intro err herr
    all_goals simp at herr
    all_goals exact herr.symm
  | some v =>
    simp only [getExpires, setExpires, refresh, hg]
    simp at hnone
    refine ⟨by simpa using hnone, by simpa using hnone, by simpa using hnone,
      ?_, ?_, ?_⟩
    all_goals intro err herr
    all_goals simp at herr

/-- Witness for `claim_C4_error_taxonomy`: on a store holding one live
entry, the lookup key `1` is absent (`refresh` errors) while key `0` is
live (`getExpires` succeeds). -/
theorem claim_C4_witness :
    (refresh ([(⟨0, 0⟩, ⟨7, 100, [9]⟩)] : Container Int Int Int)
      (1 : Int) 0 30 50).1 = Except.error TMError.ErrKeyNotFound
    ∧ ¬ (getExpires ([(⟨0, 0⟩, ⟨7, 100, [9]⟩)] : Container Int Int Int)
      (0 : Int) 0 50).1 = Except.error TMError.ErrKeyNotFound := by
  have habs := (claim_C4_error_taxonomy
    ([(⟨0, 0⟩, ⟨7, 100, [9]⟩)] : Container Int Int Int) (1 : Int) 0 30 50).2.2.1
  have hlive := (claim_C4_error_taxonomy
    ([(⟨0, 0⟩, ⟨7, 100, [9]⟩)] : Container Int Int Int) (0 : Int) 0 30 50).1
  constructor
  · apply habs.mpr
    intro hl
    obtain ⟨e, he, _⟩ := hl
    simp [getRaw] at he
  · intro herr
    have hl := hlive.mp herr
    exact hl ⟨⟨7, 100, [9]⟩, by decide, by decide⟩

/-- Claim C5: `set` never invokes callbacks; on an existing composite
key it overwrites the entry in place (value, deadline `now + ttl`, and
the callback list replaced wholesale by the new one), otherwise it
inserts a fresh entry with exactly those fields. -/
theorem claim_C5_set (c : Container κ α β) (key : κ) (sec : Int) (v : α)
    (ttl : Int) (cbs : List β) (now : Int) :
    (set c key sec v ttl cbs now).1 = []
    ∧ (∀ e, getRaw c ⟨sec, key⟩ = some e →
        (set c key sec v ttl cbs now).2 =
          updateEntry c ⟨sec, key⟩ ⟨v, now + ttl, cbs⟩)
    ∧ (getRaw c ⟨sec, key⟩ = none →
        (set c key sec v ttl cbs now).2 =
          c ++ [(⟨sec, key⟩, ⟨v, now + ttl, cbs⟩)])
    ∧ getRaw (set c key sec v ttl cbs now).2 ⟨sec, key⟩ =
        some ⟨v, now + ttl, cbs⟩ := by
  refine ⟨?_, ?_, ?_, getRaw_set_self c key sec v ttl cbs now⟩
  · cases h : getRaw c ⟨sec, key⟩ <;> simp [set, h]
  · intro e he
    simp [set, he]
  · intro he
    simp [set, he]

/-- Witness for `claim_C5_set`: overwriting key `0` replaces value,
deadline and callback list; setting fresh key `1` appends an entry. -/
theorem claim_C5_witness :
    (set ([(⟨0, 0⟩, ⟨7, 100, [9]⟩)] : Container Int Int Int)
        (0 : Int) 0 42 60 [3] 50).2 = [(⟨0, 0⟩, ⟨42, 110, [3]⟩)]
    ∧ (set ([(⟨0, 0⟩, ⟨7, 100, [9]⟩)] : Container Int Int Int)
        (1 : Int) 0 8 60 [] 50).2 =
      [(⟨0, 0⟩, ⟨7, 100, [9]⟩), (⟨0, 1⟩, ⟨8, 110, []⟩)] := by
  have h₁ := (claim_C5_set ([(⟨0, 0⟩, ⟨7, 100, [9]⟩)] : Container Int Int Int)
    (0 : Int) 0 42 60 [3] 50).2.1 ⟨7, 100, [9]⟩ (by decide)
  have h₂ := (claim_C5_set ([(⟨0, 0⟩, ⟨7, 100, [9]⟩)] : Container Int Int Int)
    (1 : Int) 0 8 60 [] 50).2.2.1 (by decide)
  constructor
  · rw [h₁]; decide
  · rw [h₂]; decide

omit [DecidableEq κ] in
theorem length_filter_split (p : keyWrap κ × element α β → Bool)
    (c : Container κ α β) :
    (c.filter p).length + (c.filter (fun a => !p a)).length = c.length := by
  induction c with
  | nil => rfl
  | cons a t ih =>
    by_cases h : p a <;> simp [List.filter_cons, h] <;> omega

/-- Claim C6: composite-key equality is the structural pair
(section, key); two `set`s with the same user key in distinct sections
coexist without collision, and flushing one section removes exactly the
entries carrying that section identifier, leaving every other entry
unchanged. -/
theorem claim_C6_section_isolation (c : Container κ α β) (key : κ)
    (sA sB : Int) (v1 v2 : α) (t1 t2 : Int) (cb1 cb2 : List β)
    (n1 n2 : Int) (hAB : sA ≠ sB) :
    (∀ (s1 s2 : Int) (k1 k2 : κ),
        (⟨s1, k1⟩ : keyWrap κ) = ⟨s2, k2⟩ ↔ s1 = s2 ∧ k1 = k2)
    ∧ getRaw (set (set c key sA v1 t1 cb1 n1).2 key sB v2 t2 cb2 n2).2
        ⟨sB, key⟩ = some ⟨v2, n2 + t2, cb2⟩
    ∧ getRaw (set (set c key sA v1 t1 cb1 n1).2 key sB v2 t2 cb2 n2).2
        ⟨sA, key⟩ = some ⟨v1, n1 + t1, cb1⟩
    ∧ (∀ kw : keyWrap κ, getRaw (sectionFlush c sA).2 kw =
        if kw.sec = sA then none else getRaw c kw) := by
  have hne : (⟨sA, key⟩ : keyWrap κ) ≠ ⟨sB, key⟩ := by
    simp [keyWrap.mk.injEq, hAB]
  refine ⟨?_, ?_, ?_, ?_⟩
  · intro s1 s2 k1 k2
    simp [keyWrap.mk.injEq]
  · exact getRaw_set_self _ key sB v2 t2 cb2 n2
  · rw [getRaw_set_ne _ key sB v2 t2 cb2 n2 ⟨sA, key⟩ hne]
    exact getRaw_set_self c key sA v1 t1 cb1 n1
  · intro kw
    exact getRaw_sectionFlush c sA kw

/-- Witness for `claim_C6_section_isolation`: same user key `5` set in
sections 1 and 2 of the empty store; both entries are retrievable. -/
theorem claim_C6_witness :
    getRaw (set (set ([] : Container Int Int Int) 5 1 10 60 [] 0).2
        5 2 20 60 [] 0).2 ⟨2, 5⟩ = some ⟨20, 60, []⟩
    ∧ getRaw (set (set ([] : Container Int Int Int) 5 1 10 60 [] 0).2
        5 2 20 60 [] 0).2 ⟨1, 5⟩ = some ⟨10, 60, []⟩ := by
  have h := claim_C6_section_isolation ([] : Container Int Int Int)
    5 1 2 10 20 60 60 [] [] 0 0 (by decide)
  exact ⟨h.2.1, h.2.2.1⟩

/-- Claim C7, counterexample to the claim as stated: `TimedMap.Size` is
`len(tm.container)`, the total entry count across all sections, not the
count of section-0 entries — on a container holding one section-0 and
one section-1 entry it returns 2, not 1. -/
theorem claim_C7_counterexample :
    size ([(⟨0, 0⟩, ⟨1, 100, []⟩), (⟨1, 0⟩, ⟨2, 100, []⟩)] :
      Container Int Int Int) = 2
    ∧ sectionSize ([(⟨0, 0⟩, ⟨1, 100, []⟩), (⟨1, 0⟩, ⟨2, 100, []⟩)] :
      Container Int Int Int) 0 = 1
    ∧ size ([(⟨0, 0⟩, ⟨1, 100, []⟩), (⟨1, 0⟩, ⟨2, 100, []⟩)] :
        Container Int Int Int) ≠
      sectionSize ([(⟨0, 0⟩, ⟨1, 100, []⟩), (⟨1, 0⟩, ⟨2, 100, []⟩)] :
        Container Int Int Int) 0 := by
  refine ⟨by decide, by decide, by decide⟩

omit [DecidableEq κ] in
/-- Claim C7 (amended: the section-scoped count is per-section, but
`size` invoked directly on the Store counts the whole container across
all sections, not only section 0): `sectionSize` counts exactly the
entries carrying its section identifier, regardless of their deadline
(expired-but-unswept entries included), and `size` is the total entry
count, the sum of the section's count and all other entries. -/
theorem claim_C7_size (c : Container κ α β) (s : Int) (k : κ)
    (e : element α β) :
    size c = c.length
    ∧ sectionSize (c ++ [(⟨s, k⟩, e)]) s = sectionSize c s + 1
    ∧ (∀ (s' : Int) (k' : κ) (e' : element α β), ¬ s' = s →
        sectionSize (c ++ [(⟨s', k'⟩, e')]) s = sectionSize c s)
    ∧ sectionSize c s + (c.filter (fun p => !decide (p.1.sec = s))).length
        = size c := by
  refine ⟨rfl, ?_, ?_, ?_⟩
  · simp [sectionSize, List.filter_append]
  · intro s' k' e' hs'
    simp [sectionSize, List.filter_append, hs']
  · exact length_filter_split (fun p => decide (p.1.sec = s)) c

/-- Witness for `claim_C7_size` at a concrete two-section container. -/
theorem claim_C7_witness :
    sectionSize (([(⟨0, 0⟩, ⟨1, 100, []⟩)] : Container Int Int Int) ++
      [(⟨1, 4⟩, ⟨2, -50, []⟩)]) 1 = sectionSize
        ([(⟨0, 0⟩, ⟨1, 100, []⟩)] : Container Int Int Int) 1 + 1 := by
  exact (claim_C7_size ([(⟨0, 0⟩, ⟨1, 100, []⟩)] : Container Int Int Int)
    1 4 ⟨2, -50, []⟩).2.1

/-- Claim C8: `remove` and the two flush forms never invoke callbacks
(their logs are empty); `remove` deletes the entry when present, is a
state-preserving no-op when absent, and touches no other key; the
store-level `flush` empties the whole container; the section-level
flush removes exactly the entries of its section. -/
theorem claim_C8_remove_flush (c : Container κ α β) (key : κ)
    (sec s : Int) :
    (remove c key sec).1 = []
    ∧ (flush c).1 = ([] : CbLog α β)
    ∧ (sectionFlush c s).1 = ([] : CbLog α β)
    ∧ (getRaw c ⟨sec, key⟩ = none → remove c key sec = ([], c))
    ∧ getRaw (remove c key sec).2 ⟨sec, key⟩ = none
    ∧ (∀ kw, ¬ kw = ⟨sec, key⟩ →
        getRaw (remove c key sec).2 kw = getRaw c kw)
    ∧ (flush c).2 = ([] : Container κ α β)
    ∧ (∀ kw, getRaw (sectionFlush c s).2 kw =
        if kw.sec = s then none else getRaw c kw) := by
  refine ⟨?_, rfl, rfl, ?_, ?_, ?_, rfl, ?_⟩
  · cases h : getRaw c ⟨sec, key⟩ <;> simp [remove, h]
  · intro h
    simp [remove, h]
  · cases h : getRaw c ⟨sec, key⟩ with
    | none => simp [remove, h]
    | some e =>
      simp only [remove, h]
      exact getRaw_eraseKey_self c ⟨sec, key⟩
  · intro kw hkw
    cases h : getRaw c ⟨sec, key⟩ with
    | none => simp [remove, h]
    | some e =>
      simp only [remove, h]
      exact getRaw_eraseKey_ne c ⟨sec, key⟩ kw hkw
  · intro kw
    exact getRaw_sectionFlush c s kw

/-- Witness for `claim_C8_remove_flush` at a concrete container:
removing an absent key is a no-op and removing a present key logs no
callback invocation. -/
theorem claim_C8_witness :
    remove ([(⟨0, 0⟩, ⟨7, 100, [9]⟩)] : Container Int Int Int) (3 : Int) 0 =
      ([], [(⟨0, 0⟩, ⟨7, 100, [9]⟩)])
    ∧ (remove ([(⟨0, 0⟩, ⟨7, 100, [9]⟩)] : Container Int Int Int)
        (0 : Int) 0).1 = [] := by
  have h₁ := (claim_C8_remove_flush
    ([(⟨0, 0⟩, ⟨7, 100, [9]⟩)] : Container Int Int Int) (3 : Int) 0 0).2.2.2.1
    (by decide)
  have h₂ := (claim_C8_remove_flush
    ([(⟨0, 0⟩, ⟨7, 100, [9]⟩)] : Container Int Int Int) (0 : Int) 0 0).1
  exact ⟨h₁, h₂⟩

/-- Claim C9: stopping the sweep loop when it is already stopped (or
was never started) changes nothing; after any stop the loop is stopped,
and stopping twice in a row equals stopping once, so a double stop is
always safe. (The non-blocking and non-panicking aspects are inherent
in the embedding: `stopCleaner` is a total function.) -/
theorem claim_C9_stop_idempotent (s : cleanerState) :
    (s.cleanerRunning = false → stopCleaner s = s)
    ∧ (stopCleaner s).cleanerRunning = false
    ∧ stopCleaner (stopCleaner s) = stopCleaner s := by
  obtain ⟨r, t⟩ := s
  cases r <;> simp [stopCleaner]

/-- Witness for `claim_C9_stop_idempotent` on the never-started state. -/
theorem claim_C9_witness :
    stopCleaner ⟨false, none⟩ = (⟨false, none⟩ : cleanerState)
    ∧ stopCleaner (stopCleaner ⟨true, some true⟩) =
        stopCleaner (⟨true, some true⟩ : cleanerState) := by
  exact ⟨(claim_C9_stop_idempotent ⟨false, none⟩).1 rfl,
    (claim_C9_stop_idempotent ⟨true, some true⟩).2.2⟩

/-- Claim C10: `set` on a composite key whose stored entry is already
expired (deadline strictly passed) but not yet swept overwrites the
entry in place with the new value, deadline and callback list — the
probe is `getRaw`, which ignores expiration — and the old entry's
callbacks are never invoked (`set`'s invocation log is empty): they are
silently discarded, not fired as an eviction. -/
theorem claim_C10_set_on_expired (c : Container κ α β) (key : κ)
    (sec : Int) (v : α) (ttl : Int) (cbs : List β) (now : Int)
    (e : element α β) (h : getRaw c ⟨sec, key⟩ = some e)
    (_hexp : timeAfter now e.expires = true) :
    (set c key sec v ttl cbs now).1 = []
    ∧ (set c key sec v ttl cbs now).2 =
        updateEntry c ⟨sec, key⟩ ⟨v, now + ttl, cbs⟩
    ∧ getRaw (set c key sec v ttl cbs now).2 ⟨sec, key⟩ =
        some ⟨v, now + ttl, cbs⟩ := by
  exact ⟨by simp [set, h], by simp [set, h],
    getRaw_set_self c key sec v ttl cbs now⟩

/-- Witness for `claim_C10_set_on_expired`: the stored entry expired at
50, `set` runs at 100 and replaces it in place; callback `9` of the old
entry is never invoked. -/
theorem claim_C10_witness :
    set ([(⟨0, 0⟩, ⟨7, 50, [9]⟩)] : Container Int Int Int)
      (0 : Int) 0 42 60 [3] 100 = ([], [(⟨0, 0⟩, ⟨42, 160, [3]⟩)]) := by
  have h := claim_C10_set_on_expired
    ([(⟨0, 0⟩, ⟨7, 50, [9]⟩)] : Container Int Int Int)
    (0 : Int) 0 42 60 [3] 100 ⟨7, 50, [9]⟩ (by decide) (by decide)
  have h1 := h.1
  have h2 := h.2.1
  refine Prod.ext h1 ?_
  rw [h2]
  decide

end Timedmap
